import Mathlib

/-!
# Verification of the document-processing pipeline subsystem

Shallow embedding of the document-processing job pipeline of the
Multi-Agent-Intelligent-Warehouse repository:

* the stage orchestrator (`src/api/routers/document.py`:
  `process_document_background`, `_execute_processing_stage`,
  `_update_stage_completion`, `_handle_stage_error`),
* the retry executor and circuit breaker
  (`src/api/services/document/retry_handler.py`),
* the job queue (`src/api/services/document/job_queue.py`),
* the document status store
  (`src/api/services/document/document_db_service.py`).

Statuses, stage names and job states are embedded as the string values the
source uses.  Machine floats used by the source for delays and timestamps are
embedded as rationals; where the source computes an `int()` truncation of a
float ratio we use natural-number floor division and note at each concrete
evaluation that the two agree on the values involved.
-/

namespace DocPipeline

/-! ## Stage orchestrator: document-status write trace

`process_document_background` drives five stages through
`_execute_processing_stage`.  On stage success `_update_stage_completion`
writes the document's overall status with `status = stage_name`; on stage
failure `_handle_stage_error` writes status `"failed"` and re-raises.
Stages 4 (validation) and 5 (routing) are wrapped in `try/except` blocks that
swallow the re-raised exception and continue with defaults; a failure of
stages 1–3 propagates to the outer handler which writes `"failed"` again.

`tools._update_document_status` and `tools._store_processing_results` live in
`src/api/agents/document/action_tools.py`, which is not part of the sources;
the next two facts are modelled from the spec.

Modelled from the spec: `_update_document_status(document_id, "failed", msg)`
sets the Document's overall status to `"failed"` (spec §4.4: "marks the
Document `failed` with a sanitized error message").

Modelled from the spec: `_store_processing_results` marks the Document
COMPLETED (spec §4.4 step 5: "persist all stage outputs, mark the Document
`COMPLETED`"; the call site's own comment reads "this will also set status to
COMPLETED").

`pipelineStatusTrace p q r v rt` is the sequence of overall-status values
written during one run in which the preprocessing / OCR / LLM / validation /
routing processors (each already wrapped in its retry executor) finally
succeed (`true`) or finally fail (`false`).  The leading `"preprocessing"`
write is the in-memory status update at the start of
`process_document_background` (lines 991–996).
-/

def pipelineStatusTrace (p q r v rt : Bool) : List String :=
  "preprocessing" ::
    (if p then
      "preprocessing" ::
        (if q then
          "ocr_extraction" ::
            (if r then
              "llm_processing" ::
                ((if v then ["validation"] else ["failed"]) ++
                 (if rt then ["routing"] else ["failed"]) ++
                 ["completed"])
            else ["failed", "failed"])
        else ["failed", "failed"])
    else ["failed", "failed"])

/-- The claim of C1, stated over the embedding: in every run, from the first
`"failed"` status write on, every status write is again `"failed"` (no later
write changes the status to another value). -/
def FailedAbsorbing : Prop :=
  ∀ p q r v rt : Bool,
    (((pipelineStatusTrace p q r v rt).dropWhile (fun s => s != "failed")).all
      (fun s => s == "failed")) = true

/-! ## Stage records and the progress computation

`DocumentDBService.get_document_status` (document_db_service.py, lines
197–285) computes `progress = int(completed_stages / total_stages * 100)` if
`total_stages > 0` else `0`, over the rows of `processing_stages` for the
document.  We embed a stage row as a `(stage_name, status)` pair and the
progress as natural-number floor division; for the row counts that occur here
(totals up to 5) Python's float truncation agrees with floor division.
-/

/-- Progress computation of `get_document_status` (source lines 226–228). -/
def progressOf (stages : List (String × String)) : Nat :=
  let total := stages.length
  let completed := (stages.filter (fun s => s.2 == "completed")).length
  if total > 0 then completed * 100 / total else 0

/-- `update_processing_stage` (document_db_service.py, lines 152–195):
an SQL UPDATE of every row matching the stage name to the new status. -/
def updateStage (rows : List (String × String)) (name status : String) :
    List (String × String) :=
  rows.map (fun r => if r.1 == name then (r.1, status) else r)

/-- `create_processing_stage` (document_db_service.py, lines 124–150): an SQL
INSERT of a fresh row; rows read back ordered by `created_at`, so insertion
appends. -/
def createStage (rows : List (String × String)) (name status : String) :
    List (String × String) :=
  rows ++ [(name, status)]

/-- One pipeline run's successive `processing_stages` table states.

Modelled from the spec: the call that creates each stage record is in
`src/api/agents/document/action_tools.py`, which is not part of the sources;
per spec §3, a `ProcessingStageRecord` is "Created lazily the first time a
stage begins" (with `create_processing_stage`'s default status `"pending"`).
The remaining writes are from the sources: `_execute_processing_stage` marks
the stage `"processing"` before running the processor and
`_update_stage_completion` marks it `"completed"` on success; on a
best-effort stage's failure `process_document_background` (lines 1052, 1087)
marks that stage `"failed"` and continues; on a critical stage's failure the
run aborts (no further stage-record writes). -/
def runStages (s : List (String × String)) :
    List (String × Bool × Bool) → List (List (String × String))
  | [] => []
  | (name, bestEffort, ok) :: rest =>
    let s1 := createStage s name "pending"
    let s2 := updateStage s1 name "processing"
    if ok then
      let s3 := updateStage s2 name "completed"
      s1 :: s2 :: s3 :: runStages s3 rest
    else if bestEffort then
      let s3 := updateStage s2 name "failed"
      s1 :: s2 :: s3 :: runStages s3 rest
    else [s1, s2]

/-- The successive stage-table states of the run with processor outcomes
`p q r v rt`, starting from the empty table. -/
def pipelineStageStates (p q r v rt : Bool) : List (List (String × String)) :=
  [] :: runStages []
    [("preprocessing", false, p), ("ocr_extraction", false, q),
     ("llm_processing", false, r), ("validation", true, v),
     ("routing", true, rt)]

/-- `chainB R l` holds when `R` holds between every two consecutive elements
of `l` (a boolean analogue of `List.Chain'`). -/
def chainB (R : α → α → Bool) : List α → Bool
  | [] => true
  | [_] => true
  | a :: b :: l => R a b && chainB R (b :: l)

/-- The claim of C2, stated over the embedding: along every run's sequence of
stage-table states, `progressOf` is monotonically non-decreasing from each
state to the next (so between any two status queries). -/
def ProgressMonotone : Prop :=
  ∀ p q r v rt : Bool,
    chainB (fun a b => decide (progressOf a ≤ progressOf b))
      (pipelineStageStates p q r v rt) = true

end DocPipeline

namespace RetryHandler

/-! ## Retry executor (`retry_handler.py`, lines 34–117)

Exceptions are an abstract type `E`; the retryable-exception set of
`RetryConfig` is a predicate on `E` (the source's `any(isinstance(e, t) for t
in retryable_exceptions)`).  Delays (floats in the source) are rationals. -/

/-- `RetryConfig.__init__` (lines 37–56). -/
structure RetryConfig (E : Type) where
  max_retries : Nat
  initial_delay : ℚ
  max_delay : ℚ
  exponential_base : ℚ
  retryable : E → Bool

/-- What one call of `retry_with_backoff` did: the value returned or the
exception finally raised, the backoff delays slept in order, and how many
times the wrapped operation was invoked. -/
structure RunResult (E A : Type) where
  result : Except E A
  sleeps : List ℚ
  attempts : Nat

/-- Does this attempt outcome raise a retryable exception? -/
def isRetryErr (cfg : RetryConfig E) : Except E A → Bool
  | Except.error e => cfg.retryable e
  | Except.ok _ => false

/-- The `for attempt in range(config.max_retries + 1)` loop of
`retry_with_backoff` (lines 86–117).  `idx` is the current attempt's index,
`rest` the number of attempts still allowed after this one (so the source's
`attempt < config.max_retries` test is `rest > 0` here), `delay` the current
backoff delay, and `outcome i` is what the wrapped operation does on its
`i`-th invocation.  A non-retryable exception is re-raised at once (line
102); a retryable one with attempts remaining sleeps `delay` and continues
with `delay = min(delay * exponential_base, max_delay)` (lines 109–110);
after the last attempt the last exception is raised (line 117). -/
def retryAux (cfg : RetryConfig E) (outcome : Nat → Except E A) :
    Nat → Nat → ℚ → RunResult E A
  | idx, rest, delay =>
    match outcome idx with
    | Except.ok v => ⟨Except.ok v, [], 1⟩
    | Except.error e =>
      if cfg.retryable e then
        match rest with
        | 0 => ⟨Except.error e, [], 1⟩
        | r + 1 =>
          let k := retryAux cfg outcome (idx + 1) r
            (min (delay * cfg.exponential_base) cfg.max_delay)
          ⟨k.result, delay :: k.sleeps, k.attempts + 1⟩
      else ⟨Except.error e, [], 1⟩

/-- `retry_with_backoff(func, config)` (lines 59–117). -/
def retryWithBackoff (cfg : RetryConfig E) (outcome : Nat → Except E A) :
    RunResult E A :=
  retryAux cfg outcome 0 cfg.max_retries cfg.initial_delay

/-- The backoff delay sequence starting from `d`: each step multiplies by
`exponential_base` and caps at `max_delay`. -/
def delayFrom (cfg : RetryConfig E) (d : ℚ) : Nat → ℚ
  | 0 => d
  | k + 1 => delayFrom cfg (min (d * cfg.exponential_base) cfg.max_delay) k

/-- The delay slept before the `(i+1)`-th retry: starts at `initial_delay`. -/
def delaySeq (cfg : RetryConfig E) (i : Nat) : ℚ :=
  delayFrom cfg cfg.initial_delay i

/-- A concrete configuration used to witness the retry-executor theorem:
exceptions are booleans, with `true` the retryable kind. -/
def witCfg : RetryConfig Bool :=
  ⟨2, 1, 3, 2, fun e => e⟩

/-- A concrete operation whose first attempt raises a retryable exception and
whose second raises a non-retryable one. -/
def fatalOutcome : Nat → Except Bool Nat := fun n =>
  if n = 0 then Except.error true
  else if n = 1 then Except.error false
  else Except.ok 0

/-- A concrete operation that always raises a retryable exception. -/
def allRetryOutcome : Nat → Except Bool Nat := fun _ => Except.error true

end RetryHandler

namespace CircuitBreaker

/-! ## Circuit breaker (`retry_handler.py`, lines 153–218)

Timestamps (`time.time()` floats) are rationals; `last_failure_time` is
`Option ℚ` (`None` initially).  The Python truthiness test
`if self.last_failure_time:` is false for `None` and for `0.0`, and is
embedded as such. -/

/-- The three values of the source's `self.state` string. -/
inductive BreakerMode
  | closed
  | opened
  | halfOpen
deriving DecidableEq

/-- `CircuitBreaker.__init__` (lines 156–168): the three parameters and the
four mutable fields that make up a breaker's state. -/
structure Breaker where
  failure_threshold : Nat
  recovery_timeout : ℚ
  half_open_max_calls : Nat
  failure_count : Nat
  last_failure_time : Option ℚ
  state : BreakerMode
  half_open_calls : Nat
deriving DecidableEq

/-- What one `call` did: rejected fast (circuit open), returned the wrapped
function's result, or re-raised its exception. -/
inductive CallResult
  | rejected
  | ok
  | errored
deriving DecidableEq

/-- The `try`/`except` body of `CircuitBreaker.call` (lines 189–218), entered
once the open-state gate has been passed: on success in `half_open` the
success counter increments and on reaching `half_open_max_calls` the breaker
closes and resets `failure_count`; on success in `closed`, `failure_count`
resets; on failure, `failure_count` increments, `last_failure_time` is set to
the current time, and on reaching `failure_threshold` the breaker opens. -/
def attempt (b : Breaker) (t : ℚ) (success : Bool) : CallResult × Breaker :=
  if success then
    if b.state = BreakerMode.halfOpen then
      if b.half_open_max_calls ≤ b.half_open_calls + 1 then
        (CallResult.ok,
         { b with state := BreakerMode.closed, failure_count := 0,
                  half_open_calls := 0 })
      else (CallResult.ok, { b with half_open_calls := b.half_open_calls + 1 })
    else if b.state = BreakerMode.closed then
      (CallResult.ok, { b with failure_count := 0 })
    else (CallResult.ok, b)
  else
    let b2 := { b with failure_count := b.failure_count + 1,
                       last_failure_time := some t }
    if b.failure_threshold ≤ b.failure_count + 1 then
      (CallResult.errored, { b2 with state := BreakerMode.opened })
    else (CallResult.errored, b2)

/-- `CircuitBreaker.call` (lines 170–218): in the `open` state the call is
rejected unless `recovery_timeout` has elapsed since `last_failure_time`, in
which case the breaker moves to `half_open` (resetting its success counter)
and the call is attempted. -/
def call (b : Breaker) (t : ℚ) (success : Bool) : CallResult × Breaker :=
  if b.state = BreakerMode.opened then
    match b.last_failure_time with
    | some lf =>
      if lf = 0 then (CallResult.rejected, b)
      else if b.recovery_timeout ≤ t - lf then
        attempt { b with state := BreakerMode.halfOpen, half_open_calls := 0 }
          t success
      else (CallResult.rejected, b)
    | none => (CallResult.rejected, b)
  else attempt b t success

/-- A fresh breaker with the given parameters (lines 156–168). -/
def mkBreaker (ft : Nat) (rt : ℚ) (hoc : Nat) : Breaker :=
  ⟨ft, rt, hoc, 0, none, BreakerMode.closed, 0⟩

/-- States a breaker can actually be in: a fresh breaker, closed under
`call`. -/
inductive Reachable : Breaker → Prop
  | mk (ft : Nat) (rt : ℚ) (hoc : Nat) : Reachable (mkBreaker ft rt hoc)
  | step (b : Breaker) (t : ℚ) (success : Bool) :
      Reachable b → Reachable (call b t success).2

end CircuitBreaker

namespace JobQueue

/-! ## Job queue (`job_queue.py`, lines 42–267)

The queue object holds a Redis connection (modelled by `redisAvailable` plus
the `zset` sorted set and the `store` key-value records, assumed not to raise)
and the in-process fallback dictionary `fb`.  Python dictionaries keep
insertion order and Redis `SETEX`/`ZADD` replace the value/score of an
existing key, so both are embedded as association lists with a
replace-in-place-or-append write.  Of a job dictionary we keep the fields the
queue logic reads: `id`, `status`, `priority`, `max_retries`, `retry_count`
(`type`, `data` and the timestamps are carried along unread and are
omitted).  TTL expiry and Redis errors are not modelled: within one modelled
history the backend neither expires keys nor raises. -/

/-- The queue-relevant fields of the job dictionary built in `enqueue_job`
(lines 114–124). -/
structure Job where
  id : String
  status : String
  priority : Int
  max_retries : Nat
  retry_count : Nat
deriving DecidableEq

/-- Look a key up in an association list (Python `dict.get` / Redis `GET`). -/
def lookupKey (l : List (String × α)) (k : String) : Option α :=
  (l.find? (fun p => p.1 == k)).map Prod.snd

/-- Write a key (Python `dict[k] = v` / Redis `SETEX`/`ZADD`): replace the
value of an existing key in place, else append. -/
def setKey (l : List (String × α)) (k : String) (v : α) : List (String × α) :=
  if l.any (fun p => p.1 == k) then
    l.map (fun p => if p.1 == k then (k, v) else p)
  else l ++ [(k, v)]

/-- The whole queue state: the backend flag and the three stores. -/
structure QState where
  redisAvailable : Bool
  zset : List (String × Int)
  store : List (String × Job)
  fb : List (String × Job)
deriving DecidableEq

/-- `enqueue_job` (lines 94–148): build a PENDING job with `retry_count = 0`;
on Redis store the record and add the id to the sorted set with the priority
as score, otherwise put it in the fallback dictionary.  (The fresh UUID is
taken as a parameter.) -/
def enqueueJob (s : QState) (jobId : String) (priority : Int)
    (maxRetries : Nat) : QState :=
  let job : Job := ⟨jobId, "pending", priority, maxRetries, 0⟩
  if s.redisAvailable then
    { s with store := setKey s.store jobId job,
             zset := setKey s.zset jobId priority }
  else { s with fb := setKey s.fb jobId job }

/-- `get_job` (lines 150–161): on Redis read the record store first, then in
all cases fall back to the in-memory dictionary. -/
def getJob (s : QState) (jobId : String) : Option Job :=
  if s.redisAvailable then
    match lookupKey s.store jobId with
    | some j => some j
    | none => lookupKey s.fb jobId
  else lookupKey s.fb jobId

/-- `update_job_status` (lines 163–195): re-fetch the job, overwrite its
status, and write it back to the Redis record store or the fallback
dictionary.  (`error_message`/`result` only add omitted fields.) -/
def updateJobStatus (s : QState) (jobId status : String) : Bool × QState :=
  match getJob s jobId with
  | none => (false, s)
  | some j =>
    let j2 := { j with status := status }
    if s.redisAvailable then
      (true, { s with store := setKey s.store jobId j2 })
    else (true, { s with fb := setKey s.fb jobId j2 })

/-- `ZREVRANGE queue 0 0 withscores`: the entry with the maximal score;
entries with equal scores come in reverse lexicographic member order, so the
lexicographically greatest member wins a tie. -/
def zbest : List (String × Int) → Option (String × Int)
  | [] => none
  | p :: rest =>
    match zbest rest with
    | none => some p
    | some q =>
      if p.2 < q.2 ∨ (p.2 = q.2 ∧ p.1 < q.1) then some q else some p

/-- The job id returned by `zrevrange(queue, 0, 0)` (lines 202–208). -/
def ztop (z : List (String × Int)) : Option String :=
  (zbest z).map Prod.fst

/-- The ordering `sorted(..., key=lambda x: x[1].get("priority", 0),
reverse=True)` of the fallback scan (lines 219–223). -/
def byPriorityDesc (a b : String × Job) : Prop :=
  b.2.priority ≤ a.2.priority

instance : DecidableRel byPriorityDesc := fun a b =>
  inferInstanceAs (Decidable (b.2.priority ≤ a.2.priority))

instance : IsTotal (String × Job) byPriorityDesc :=
  ⟨fun a b => le_total b.2.priority a.2.priority⟩

instance : IsTrans (String × Job) byPriorityDesc :=
  ⟨fun _ _ _ h1 h2 => le_trans h2 h1⟩

/-- The in-memory fallback scan of `dequeue_job` (lines 218–230): walk the
jobs in priority-descending order (Python's stable sort) and claim the first
PENDING one, marking it `"processing"` in the dictionary and returning the
updated record. -/
def fbScan (s : QState) : Option Job × QState :=
  match (s.fb.insertionSort byPriorityDesc).find?
      (fun p => p.2.status == "pending") with
  | none => (none, s)
  | some (jobId, job) =>
    let j2 := { job with status := "processing" }
    (some j2, { s with fb := setKey s.fb jobId j2 })

/-- `dequeue_job` (lines 197–230): on Redis take the top-scored queue entry —
if the queue is empty return nothing at once (line 206); if the entry's
record exists with status PENDING, remove it from the queue (`ZREM`), mark it
PROCESSING and return the record as fetched; otherwise fall through to the
in-memory fallback scan, which is also the non-Redis path. -/
def dequeueJob (s : QState) : Option Job × QState :=
  if s.redisAvailable then
    match ztop s.zset with
    | none => (none, s)
    | some jobId =>
      match getJob s jobId with
      | some job =>
        if job.status == "pending" then
          let s1 := { s with zset := s.zset.filter (fun p => p.1 != jobId) }
          (some job, (updateJobStatus s1 jobId "processing").2)
        else fbScan s
      | none => fbScan s
  else fbScan s

/-- `retry_job` (lines 232–267): with retries left, bump `retry_count`, set
status RETRYING and — on Redis — re-add the id to the queue with score
`priority - 1` (the record's own `priority` field is left unchanged, and the
fallback path only stores the updated record); with retries exhausted, mark
the job FAILED and return `False`. -/
def retryJob (s : QState) (jobId : String) : Bool × QState :=
  match getJob s jobId with
  | none => (false, s)
  | some job =>
    if job.max_retries ≤ job.retry_count then
      (false, (updateJobStatus s jobId "failed").2)
    else
      let j2 := { job with retry_count := job.retry_count + 1,
                           status := "retrying" }
      if s.redisAvailable then
        (true, { s with store := setKey s.store jobId j2,
                        zset := setKey s.zset jobId (job.priority - 1) })
      else (true, { s with fb := setKey s.fb jobId j2 })

/-- The queue's public operations, for reachability of queue states. -/
inductive QOp
  | enq (jobId : String) (priority : Int) (maxRetries : Nat)
  | deq
  | upd (jobId status : String)
  | retry (jobId : String)

/-- Apply one operation (dropping returned values). -/
def applyOp (s : QState) : QOp → QState
  | QOp.enq jobId priority maxRetries => enqueueJob s jobId priority maxRetries
  | QOp.deq => (dequeueJob s).2
  | QOp.upd jobId status => (updateJobStatus s jobId status).2
  | QOp.retry jobId => (retryJob s jobId).2

/-- Apply a sequence of operations. -/
def applyOps (s : QState) (ops : List QOp) : QState :=
  ops.foldl applyOp s

/-- A freshly constructed queue (`JobQueue.__init__`, lines 56–61), on either
backend. -/
def initState (redis : Bool) : QState := ⟨redis, [], [], []⟩

/-- Every job record held by the queue respects
`retry_count ≤ max_retries`. -/
def JobsBounded (s : QState) : Prop :=
  ∀ p : String × Job, p ∈ s.store ∨ p ∈ s.fb →
    p.2.retry_count ≤ p.2.max_retries

/-- The claim of C3, stated over the embedding: `retry_job` on a job with
retries left returns `True` and re-marks the job with status PENDING. -/
def RetryRemarksPending : Prop :=
  ∀ (s : QState) (jobId : String) (j : Job), getJob s jobId = some j →
    j.retry_count < j.max_retries →
    (retryJob s jobId).1 = true ∧
    (getJob (retryJob s jobId).2 jobId).map Job.status = some "pending"

/-- The claim of C4's "returns none exactly when no PENDING job exists"
direction, stated over the embedding: whenever `dequeue_job` returns nothing,
no job record anywhere in the backend has status PENDING. -/
def DequeueComplete : Prop :=
  ∀ s : QState, (dequeueJob s).1 = none →
    ∀ p : String × Job, p ∈ s.store ∨ p ∈ s.fb → p.2.status ≠ "pending"

end JobQueue

namespace JobQueue

/-! ### Interleaving model of concurrent `dequeue_job` calls (Redis path)

Under the single-process cooperative-async execution model, control can
switch between two in-flight `dequeue_job` calls only at `await` points.  The
Redis path of `dequeue_job` awaits `zrevrange`, `get` (inside `get_job`),
`zrem`, and `update_job_status`; each of those becomes one atomic step of a
thread.  (`update_job_status` internally awaits twice — `get` then `setex` —
but is taken as one step here: coarser atomicity only removes interleavings,
so any exclusivity violation exhibited in this model is also possible in the
source.)  The in-memory fallback scan contains no `await` and is one atomic
step. -/

/-- The local state of one in-flight `dequeue_job` call: its next await
(`pc`), the queue-top id it read, its fetched job dictionary, and its return
value once finished (`pc = 4`). -/
structure TState where
  pc : Nat
  topId : Option String
  job : Option Job
  res : Option Job
deriving DecidableEq

/-- One atomic step of an in-flight Redis-path `dequeue_job` call
(job_queue.py, lines 199–230): `pc = 0` runs `zrevrange` (returning `None`
at once on an empty queue, line 206); `pc = 1` runs `get_job` and either
proceeds to claim a PENDING job or degrades to the atomic fallback scan;
`pc = 2` runs `zrem`; `pc = 3` runs `update_job_status(..., PROCESSING)` and
returns the job dictionary fetched at `pc = 1`. -/
def tstep (s : QState) (t : TState) : QState × TState :=
  match t.pc with
  | 0 =>
    match ztop s.zset with
    | none => (s, { t with pc := 4, res := none })
    | some k => (s, { t with pc := 1, topId := some k })
  | 1 =>
    match t.topId with
    | some k =>
      match getJob s k with
      | some j =>
        if j.status == "pending" then (s, { t with pc := 2, job := some j })
        else
          let r := fbScan s
          (r.2, { t with pc := 4, res := r.1 })
      | none =>
        let r := fbScan s
        (r.2, { t with pc := 4, res := r.1 })
    | none => (s, { t with pc := 4 })
  | 2 =>
    match t.topId with
    | some k =>
      ({ s with zset := s.zset.filter (fun p => p.1 != k) },
       { t with pc := 3 })
    | none => (s, { t with pc := 4 })
  | 3 =>
    match t.topId, t.job with
    | some k, some j =>
      ((updateJobStatus s k "processing").2, { t with pc := 4, res := some j })
    | _, _ => (s, { t with pc := 4 })
  | _ => (s, t)

/-- A `dequeue_job` call that has not yet run. -/
def initThread : TState := ⟨0, none, none, none⟩

/-- Run two in-flight `dequeue_job` calls under a schedule: `true` steps the
first call, `false` the second. -/
def runSched : QState → TState → TState → List Bool → QState × TState × TState
  | s, t0, t1, [] => (s, t0, t1)
  | s, t0, t1, b :: rest =>
    if b then
      let r := tstep s t0
      runSched r.1 r.2 t1 rest
    else
      let r := tstep s t1
      runSched r.1 t0 r.2 rest

/-- The claim of C9, stated over the embedding: for every backend state and
every interleaving of two concurrent `dequeue_job` calls, the two calls never
both return a job with the same id. -/
def DequeueExclusive : Prop :=
  ∀ (s : QState) (sched : List Bool) (j0 j1 : Job),
    (runSched s initThread initThread sched).2.1.res = some j0 →
    (runSched s initThread initThread sched).2.2.res = some j1 →
    j0.id ≠ j1.id

end JobQueue

namespace DocStore

/-! ## Result tables of the Document Status Store
(`document_db_service.py`, lines 287–532)

Rows are kept in insertion order (reads are `ORDER BY created_at`, and the
quality/routing reads take the first returned row).  The JSON-serialized
columns (`json.dumps` output) are embedded as strings, scores as rationals.
`ensure_serializable` only normalizes Python values before `json.dumps` and
is the identity on the abstract payload. -/

/-- The non-key columns of one `extraction_results` row (lines 342–347). -/
structure ExtPayload where
  raw_data : String
  processed_data : String
  confidence_score : ℚ
  processing_time_ms : Int
  model_used : String
  metadata : String
deriving DecidableEq

/-- One `extraction_results` row. -/
structure ExtRow where
  document_id : String
  stage : String
  payload : ExtPayload
deriving DecidableEq

/-- `save_extraction_result` (lines 287–362): DELETE every row with this
`(document_id, stage)` key, then INSERT the new row (appended: reads order by
`created_at`). -/
def saveExtractionResult (tbl : List ExtRow) (doc stage : String)
    (v : ExtPayload) : List ExtRow :=
  tbl.filter (fun r => !(r.document_id == doc && r.stage == stage)) ++
    [⟨doc, stage, v⟩]

/-- The `extraction_results` part of `get_extraction_results` (lines
455–486): the document's rows in `created_at` order, folded into a
stage-keyed dictionary (a later row overwrites an earlier one with the same
stage).  The dictionary is an association list with Python-dict write
semantics (`JobQueue.setKey`). -/
def getExtractionResults (tbl : List ExtRow) (doc : String) :
    List (String × ExtPayload) :=
  (tbl.filter (fun r => r.document_id == doc)).foldl
    (fun m r => JobQueue.setKey m r.stage r.payload) []

/-- `save_quality_score` / `save_routing_decision` (lines 364–450): DELETE
every row of the document, then INSERT the new row.  The payload type is
abstract: it stands for the score columns or the routing columns. -/
def saveByDoc (tbl : List (String × α)) (doc : String) (v : α) :
    List (String × α) :=
  tbl.filter (fun r => !(r.1 == doc)) ++ [(doc, v)]

/-- The quality/routing part of `get_extraction_results` (lines 488–523):
`SELECT * WHERE document_id = $1` and take the first returned row, if any. -/
def getByDoc (tbl : List (String × α)) (doc : String) : Option α :=
  (tbl.find? (fun r => r.1 == doc)).map Prod.snd

/-! ## The status view of `get_document_status` (lines 197–285) -/

/-- Python's `str.title()` on one word: first letter upper-cased, the rest
lower-cased. -/
def titleWord (w : String) : String := w.toLower.capitalize

/-- `stage_name.replace("_", " ").title()` (lines 234, 237). -/
def titleize (s : String) : String :=
  String.intercalate " " (((s.replace "_" " ").splitOn " ").map titleWord)

/-- The current-stage loop (lines 231–238): the first stage found
`"processing"` or `"pending"`, title-cased; default `"Preprocessing"`. -/
def currentStageOf (stages : List (String × String)) : String :=
  match stages.find? (fun s => s.2 == "processing" || s.2 == "pending") with
  | some s => titleize s.1
  | none => "Preprocessing"

/-- The default stage structure substituted when a document has no
`processing_stages` rows yet (lines 250–260). -/
def defaultStages : List (String × String) :=
  [("preprocessing", "pending"), ("ocr_extraction", "pending"),
   ("llm_processing", "pending"), ("validation", "pending"),
   ("routing", "pending")]

/-- The fields of `get_document_status`'s result that depend on the stage
rows (lines 262–282), given the document's stored status and its
`processing_stages` rows as `(stage_name, status)` pairs (the per-stage
timestamps, durations and metadata are carried through unread). -/
structure DocStatusView where
  status : String
  current_stage : String
  progress : Nat
  stages : List (String × String)
deriving DecidableEq

/-- `get_document_status` (lines 197–285): progress from the stage rows
(`DocPipeline.progressOf`), current stage from the original rows, and the
five-stage default list substituted when no rows exist. -/
def getDocumentStatusView (docStatus : String)
    (stages : List (String × String)) : DocStatusView :=
  ⟨docStatus, currentStageOf stages, DocPipeline.progressOf stages,
   if stages.isEmpty then defaultStages else stages⟩

end DocStore

/-- C1, counterexample: the FAILED document status is not absorbing.  In the
run where preprocessing, OCR and LLM processing succeed, validation finally
fails and routing succeeds, the failure handler writes `"failed"` and the run
afterwards writes `"routing"` and `"completed"`. -/
theorem C1_counterexample : ¬ DocPipeline.FailedAbsorbing := by
  intro h
  have := h true true true false true
  simp [DocPipeline.pipelineStatusTrace, DocPipeline.FailedAbsorbing] at this

/-- C1, amended: the `"failed"` status is absorbing for critical-stage
failures — if preprocessing, OCR extraction or LLM processing finally fails,
every status write from the first `"failed"` on is again `"failed"` — while a
best-effort stage's (validation's or routing's) failure handler does write
`"failed"`, and the run then continues and finally writes `"completed"`. -/
theorem C1_amended (p q r v rt : Bool) :
    ((p && q && r) = false →
      (((DocPipeline.pipelineStatusTrace p q r v rt).dropWhile
          (fun s => s != "failed")).all (fun s => s == "failed")) = true) ∧
    ((p && q && r) = true →
      (DocPipeline.pipelineStatusTrace p q r v rt).getLast? = some "completed") := by
  revert p q r v rt
  decide

/-- Witness for `C1_amended`: the critical-failure branch at the run where OCR
fails, and the completion branch at the run where validation fails. -/
theorem C1_amended_witness :
    ((((DocPipeline.pipelineStatusTrace true false true true true).dropWhile
        (fun s => s != "failed")).all (fun s => s == "failed")) = true) ∧
    (DocPipeline.pipelineStatusTrace true true true false true).getLast? =
      some "completed" :=
  ⟨(C1_amended true false true true true).1 rfl,
   (C1_amended true true true false true).2 rfl⟩

/-- C2, counterexample: the progress computed by `get_document_status` is not
monotonically non-decreasing across a run.  In the all-success run, after the
preprocessing row is marked `"completed"` a query reads progress 100 (= 1/1),
and after the OCR row is lazily created the next query reads progress 50
(= 1/2). -/
theorem C2_counterexample : ¬ DocPipeline.ProgressMonotone := by
  intro h
  have := h true true true true true
  revert this
  decide

/-- C2, amended: between two consecutive stage-table states of a run with the
same number of stage rows (i.e. between which no stage record was lazily
created), progress is non-decreasing; progress can drop only when a new stage
record is created, which increases the divisor of
`completed_stages / total_stages`. -/
theorem C2_amended (p q r v rt : Bool) :
    DocPipeline.chainB
      (fun a b => a.length != b.length ||
        decide (DocPipeline.progressOf a ≤ DocPipeline.progressOf b))
      (DocPipeline.pipelineStageStates p q r v rt) = true := by
  revert p q r v rt
  decide

namespace CircuitBreaker

/-- The attempt body preserves the invariant "not closed implies the failure
count has reached the threshold". -/
theorem attempt_inv (b : Breaker) (t : ℚ) (success : Bool)
    (hinv : b.state ≠ BreakerMode.closed →
      b.failure_threshold ≤ b.failure_count) :
    (attempt b t success).2.state ≠ BreakerMode.closed →
    (attempt b t success).2.failure_threshold ≤
      (attempt b t success).2.failure_count := by
  unfold attempt
  cases success with
  | true =>
    by_cases h1 : b.state = BreakerMode.halfOpen
    · by_cases h2 : b.half_open_max_calls ≤ b.half_open_calls + 1
      · simp [h1, h2]
      · simp only [h1, h2, if_true, if_false]
        intro _
        exact hinv (by rw [h1]; simp)
    · by_cases h2 : b.state = BreakerMode.closed
      · simp [h1, h2]
      · simp only [h1, h2, if_false, if_true]
        intro _
        exact hinv h2
  | false =>
    by_cases h1 : b.failure_threshold ≤ b.failure_count + 1
    · simp [h1]
    · simp only [h1, if_false, if_true]
      intro h
      exact Nat.le_succ_of_le (hinv h)

/-- `call` preserves the same invariant. -/
theorem call_inv (b : Breaker) (t : ℚ) (success : Bool)
    (hinv : b.state ≠ BreakerMode.closed →
      b.failure_threshold ≤ b.failure_count) :
    (call b t success).2.state ≠ BreakerMode.closed →
    (call b t success).2.failure_threshold ≤
      (call b t success).2.failure_count := by
  unfold call
  by_cases h1 : b.state = BreakerMode.opened
  · simp only [h1, if_true]
    cases hl : b.last_failure_time with
    | none => intro h; exact hinv h
    | some lf =>
      by_cases h2 : lf = 0
      · simp only [h2, if_true]
        intro h
        exact hinv h
      · by_cases h3 : b.recovery_timeout ≤ t - lf
        · simp only [h2, h3, if_true, if_false]
          exact attempt_inv _ t success (fun _ => hinv (by rw [h1]; simp))
        · simp only [h2, h3, if_false]
          intro h
          exact hinv h
  · simp only [h1, if_false]
    exact attempt_inv b t success hinv

/-- Every reachable breaker state that is not closed has
`failure_count ≥ failure_threshold`. -/
theorem reachable_fc (b : Breaker) (hb : Reachable b) :
    b.state ≠ BreakerMode.closed → b.failure_threshold ≤ b.failure_count := by
  induction hb with
  | mk ft rt hoc => intro h; simp [mkBreaker] at h
  | step b t success hb ih => exact call_inv b t success ih

end CircuitBreaker

/-- C5: in every reachable half-open breaker state, a successful call
increments the half-open success counter, and as soon as that counter
reaches `half_open_max_calls` the breaker returns to closed with
`failure_count` reset to 0; a failing call while half-open re-opens the
breaker and resets the open-timestamp to the failure's time. -/
theorem C5_half_open (b : CircuitBreaker.Breaker) (t : ℚ)
    (hb : CircuitBreaker.Reachable b)
    (hs : b.state = CircuitBreaker.BreakerMode.halfOpen) :
    ((b.half_open_max_calls ≤ b.half_open_calls + 1 →
        (CircuitBreaker.call b t true).2.state =
          CircuitBreaker.BreakerMode.closed ∧
        (CircuitBreaker.call b t true).2.failure_count = 0 ∧
        (CircuitBreaker.call b t true).2.half_open_calls = 0) ∧
     (b.half_open_calls + 1 < b.half_open_max_calls →
        (CircuitBreaker.call b t true).2.state =
          CircuitBreaker.BreakerMode.halfOpen ∧
        (CircuitBreaker.call b t true).2.half_open_calls =
          b.half_open_calls + 1)) ∧
    ((CircuitBreaker.call b t false).2.state =
        CircuitBreaker.BreakerMode.opened ∧
     (CircuitBreaker.call b t false).2.last_failure_time = some t) := by
  have hno : b.state ≠ CircuitBreaker.BreakerMode.opened := by rw [hs]; simp
  have hnc : b.state ≠ CircuitBreaker.BreakerMode.closed := by rw [hs]; simp
  have hfc := CircuitBreaker.reachable_fc b hb hnc
  unfold CircuitBreaker.call
  simp only [hno, if_false]
  unfold CircuitBreaker.attempt
  refine ⟨⟨fun hmax => ?_, fun hlt => ?_⟩, ?_⟩
  · simp [hs, hmax]
  · simp [hs, Nat.not_le.mpr hlt]
  · have : b.failure_threshold ≤ b.failure_count + 1 := Nat.le_succ_of_le hfc
    simp [this]

/-- Witness for `C5_half_open`: the concrete breaker with
`failure_threshold = 1`, `recovery_timeout = 60`, `half_open_max_calls = 2`,
reached by one failure at time 5 and one successful probe at time 70, sits in
the half-open state; a failure at time 80 re-opens it with the timestamp
reset to 80. -/
theorem C5_half_open_witness :
    (CircuitBreaker.call
        ⟨1, 60, 2, 1, some 5, CircuitBreaker.BreakerMode.halfOpen, 1⟩
        80 false).2.state = CircuitBreaker.BreakerMode.opened ∧
    (CircuitBreaker.call
        ⟨1, 60, 2, 1, some 5, CircuitBreaker.BreakerMode.halfOpen, 1⟩
        80 false).2.last_failure_time = some 80 := by
  have hreach : CircuitBreaker.Reachable
      ⟨1, 60, 2, 1, some 5, CircuitBreaker.BreakerMode.halfOpen, 1⟩ := by
    have h1 : (CircuitBreaker.call (CircuitBreaker.mkBreaker 1 60 2)
        5 false).2 =
        ⟨1, 60, 2, 1, some 5, CircuitBreaker.BreakerMode.opened, 0⟩ := by
      norm_num [CircuitBreaker.call, CircuitBreaker.attempt,
        CircuitBreaker.mkBreaker]
      decide
    have h2 : (CircuitBreaker.call
        (⟨1, 60, 2, 1, some 5, CircuitBreaker.BreakerMode.opened, 0⟩ :
          CircuitBreaker.Breaker) 70 true).2 =
        ⟨1, 60, 2, 1, some 5, CircuitBreaker.BreakerMode.halfOpen, 1⟩ := by
      norm_num [CircuitBreaker.call, CircuitBreaker.attempt]
    have := CircuitBreaker.Reachable.step _ 70 true
      (h1 ▸ CircuitBreaker.Reachable.step _ 5 false
        (CircuitBreaker.Reachable.mk 1 60 2))
    exact h2 ▸ this
  exact (C5_half_open _ 80 hreach rfl).2

namespace RetryHandler

/-- The retry loop makes at most one attempt more than the retries it is
allowed. -/
theorem retryAux_attempts_le (cfg : RetryConfig E) (o : Nat → Except E A) :
    ∀ (rest idx : Nat) (d : ℚ),
      (retryAux cfg o idx rest d).attempts ≤ rest + 1 := by
  intro rest
  induction rest with
  | zero =>
    intro idx d
    rw [retryAux]
    cases h : o idx with
    | ok v => simp
    | error e => by_cases hr : cfg.retryable e <;> simp [hr]
  | succ r ih =>
    intro idx d
    rw [retryAux]
    cases h : o idx with
    | ok v => simp
    | error e =>
      by_cases hr : cfg.retryable e
      · have := ih (idx + 1) (min (d * cfg.exponential_base) cfg.max_delay)
        simp only [hr, if_pos]
        omega
      · simp [hr]

/-- Every delay slept by the retry loop follows the
multiply-by-base-capped-at-max recurrence from the starting delay. -/
theorem retryAux_sleeps_get (cfg : RetryConfig E) (o : Nat → Except E A) :
    ∀ (rest idx : Nat) (d : ℚ) (i : Nat),
      i < (retryAux cfg o idx rest d).sleeps.length →
      (retryAux cfg o idx rest d).sleeps[i]? = some (delayFrom cfg d i) := by
  intro rest
  induction rest with
  | zero =>
    intro idx d i h
    rw [retryAux] at h ⊢
    revert h
    cases o idx with
    | ok v => intro h; simp at h
    | error e =>
      intro h
      by_cases hr : cfg.retryable e <;> simp [hr] at h
  | succ r ih =>
    intro idx d i h
    rw [retryAux] at h ⊢
    revert h
    cases o idx with
    | ok v => intro h; simp at h
    | error e =>
      intro h
      by_cases hr : cfg.retryable e
      · simp only [hr, if_pos] at h ⊢
        cases i with
        | zero => simp [delayFrom]
        | succ j =>
          simp only [List.length_cons, Nat.succ_lt_succ_iff] at h
          have := ih (idx + 1)
            (min (d * cfg.exponential_base) cfg.max_delay) j h
          simpa [delayFrom] using this
      · simp [hr] at h

/-- A non-retryable exception at attempt `idx + j`, preceded by `j` retryable
failures, is raised at once: it becomes the result, the loop made `j + 1`
attempts and slept `j` times. -/
theorem retryAux_fatal (cfg : RetryConfig E) (o : Nat → Except E A) :
    ∀ (rest idx j : Nat) (d : ℚ) (e : E),
      (∀ k, k < j → isRetryErr cfg (o (idx + k)) = true) →
      o (idx + j) = Except.error e → cfg.retryable e = false → j ≤ rest →
      (retryAux cfg o idx rest d).result = Except.error e ∧
      (retryAux cfg o idx rest d).attempts = j + 1 ∧
      (retryAux cfg o idx rest d).sleeps.length = j := by
  intro rest
  induction rest with
  | zero =>
    intro idx j d e hk hj hr hle
    have hj0 : j = 0 := Nat.le_zero.mp hle
    subst hj0
    rw [retryAux]
    simp only [Nat.add_zero] at hj
    simp [hj, hr]
  | succ r ih =>
    intro idx j d e hk hj hr hle
    cases j with
    | zero =>
      rw [retryAux]
      simp only [Nat.add_zero] at hj
      simp [hj, hr]
    | succ j =>
      have h0 := hk 0 (Nat.succ_pos j)
      rw [retryAux]
      cases h0e : o idx with
      | ok v => rw [Nat.add_zero, h0e] at h0; simp [isRetryErr] at h0
      | error e0 =>
        rw [Nat.add_zero, h0e] at h0
        have hr0 : cfg.retryable e0 = true := by
          simpa [isRetryErr] using h0
        simp only [hr0, if_true]
        have hrec := ih (idx + 1) j
          (min (d * cfg.exponential_base) cfg.max_delay) e
          (fun k hkj => by
            have := hk (k + 1) (Nat.succ_lt_succ hkj)
            simpa [Nat.add_assoc, Nat.add_comm 1 k] using this)
          (by simpa [Nat.add_assoc, Nat.add_comm 1 j] using hj)
          hr (Nat.le_of_succ_le_succ hle)
        refine ⟨hrec.1, ?_, ?_⟩
        · simp [hrec.2.1]
        · simp [hrec.2.2]

/-- When every allowed attempt fails with a retryable exception, the loop's
result is the outcome of the last attempt. -/
theorem retryAux_exhausted (cfg : RetryConfig E) (o : Nat → Except E A) :
    ∀ (rest idx : Nat) (d : ℚ),
      (∀ k, k ≤ rest → isRetryErr cfg (o (idx + k)) = true) →
      (retryAux cfg o idx rest d).result = o (idx + rest) := by
  intro rest
  induction rest with
  | zero =>
    intro idx d hk
    have h0 := hk 0 (Nat.le_refl 0)
    rw [retryAux]
    cases h0e : o idx with
    | ok v => rw [Nat.add_zero, h0e] at h0; simp [isRetryErr] at h0
    | error e0 =>
      rw [Nat.add_zero, h0e] at h0
      have hr0 : cfg.retryable e0 = true := by simpa [isRetryErr] using h0
      simp [hr0, h0e]
  | succ r ih =>
    intro idx d hk
    have h0 := hk 0 (Nat.zero_le _)
    rw [retryAux]
    cases h0e : o idx with
    | ok v => rw [Nat.add_zero, h0e] at h0; simp [isRetryErr] at h0
    | error e0 =>
      rw [Nat.add_zero, h0e] at h0
      have hr0 : cfg.retryable e0 = true := by simpa [isRetryErr] using h0
      simp only [hr0, if_true]
      have hrec := ih (idx + 1)
        (min (d * cfg.exponential_base) cfg.max_delay)
        (fun k hkr => by
          have := hk (k + 1) (Nat.succ_le_succ hkr)
          simpa [Nat.add_assoc, Nat.add_comm 1 k] using this)
      rw [hrec]
      congr 1
      omega

end RetryHandler

/-- C6: `retry_with_backoff` invokes the operation at most
`max_retries + 1` times; every delay it sleeps follows the sequence that
starts at `initial_delay` and is multiplied by `exponential_base` then capped
at `max_delay` after each retry; a non-retryable exception is re-raised
immediately (no further attempts and no delay for it); and when every
attempt fails retryably the exception of the last attempt is raised. -/
theorem C6_retry_with_backoff {E A : Type} (cfg : RetryHandler.RetryConfig E)
    (o : Nat → Except E A) :
    (RetryHandler.retryWithBackoff cfg o).attempts ≤ cfg.max_retries + 1 ∧
    (∀ i, i < (RetryHandler.retryWithBackoff cfg o).sleeps.length →
      (RetryHandler.retryWithBackoff cfg o).sleeps[i]? =
        some (RetryHandler.delaySeq cfg i)) ∧
    (∀ j e, (∀ k, k < j → RetryHandler.isRetryErr cfg (o k) = true) →
      o j = Except.error e → cfg.retryable e = false → j ≤ cfg.max_retries →
      (RetryHandler.retryWithBackoff cfg o).result = Except.error e ∧
      (RetryHandler.retryWithBackoff cfg o).attempts = j + 1 ∧
      (RetryHandler.retryWithBackoff cfg o).sleeps.length = j) ∧
    ((∀ k, k ≤ cfg.max_retries → RetryHandler.isRetryErr cfg (o k) = true) →
      (RetryHandler.retryWithBackoff cfg o).result = o cfg.max_retries) := by
  refine ⟨RetryHandler.retryAux_attempts_le cfg o cfg.max_retries 0
      cfg.initial_delay,
    fun i h => RetryHandler.retryAux_sleeps_get cfg o cfg.max_retries 0
      cfg.initial_delay i h,
    fun j e hk hj hr hle => ?_, fun hall => ?_⟩
  · exact RetryHandler.retryAux_fatal cfg o cfg.max_retries 0 j
      cfg.initial_delay e (fun k hkj => by simpa using hk k hkj)
      (by simpa using hj) hr hle
  · have := RetryHandler.retryAux_exhausted cfg o cfg.max_retries 0
      cfg.initial_delay (fun k hkr => by simpa using hall k hkr)
    simpa using this

/-- Witness for `C6_retry_with_backoff`: with `max_retries = 2`,
`initial_delay = 1`, a first retryable failure and a second non-retryable
failure, the call raises the non-retryable exception after exactly 2 attempts
and 1 sleep of the initial delay; and under always-retryable failures the
last attempt's exception is raised. -/
theorem C6_retry_with_backoff_witness :
    (∀ k, k < 1 →
      RetryHandler.isRetryErr RetryHandler.witCfg
        (RetryHandler.fatalOutcome k) = true) ∧
    RetryHandler.fatalOutcome 1 = Except.error false ∧
    RetryHandler.witCfg.retryable false = false ∧
    1 ≤ RetryHandler.witCfg.max_retries ∧
    (RetryHandler.retryWithBackoff RetryHandler.witCfg
        RetryHandler.fatalOutcome).result = Except.error false ∧
    (RetryHandler.retryWithBackoff RetryHandler.witCfg
        RetryHandler.fatalOutcome).attempts = 2 ∧
    (RetryHandler.retryWithBackoff RetryHandler.witCfg
        RetryHandler.fatalOutcome).sleeps.length = 1 ∧
    (RetryHandler.retryWithBackoff RetryHandler.witCfg
        RetryHandler.fatalOutcome).sleeps[0]? =
      some (RetryHandler.delaySeq RetryHandler.witCfg 0) ∧
    (∀ k, k ≤ RetryHandler.witCfg.max_retries →
      RetryHandler.isRetryErr RetryHandler.witCfg
        (RetryHandler.allRetryOutcome k) = true) ∧
    (RetryHandler.retryWithBackoff RetryHandler.witCfg
        RetryHandler.allRetryOutcome).result =
      RetryHandler.allRetryOutcome RetryHandler.witCfg.max_retries := by
  have h1 : ∀ k, k < 1 →
      RetryHandler.isRetryErr RetryHandler.witCfg
        (RetryHandler.fatalOutcome k) = true := by decide
  have h4 : 1 ≤ RetryHandler.witCfg.max_retries := by decide
  have hf := (C6_retry_with_backoff RetryHandler.witCfg
    RetryHandler.fatalOutcome).2.2.1 1 false h1 rfl rfl h4
  have hsl := (C6_retry_with_backoff RetryHandler.witCfg
    RetryHandler.fatalOutcome).2.1 0 (by rw [hf.2.2]; exact Nat.one_pos)
  have h5 : ∀ k, k ≤ RetryHandler.witCfg.max_retries →
      RetryHandler.isRetryErr RetryHandler.witCfg
        (RetryHandler.allRetryOutcome k) = true := by decide
  have he := (C6_retry_with_backoff RetryHandler.witCfg
    RetryHandler.allRetryOutcome).2.2.2 h5
  exact ⟨h1, rfl, rfl, h4, hf.1, hf.2.1, hf.2.2, hsl, h5, he⟩

namespace JobQueue

/-- Writing a key then reading it back yields the written value. -/
theorem lookupKey_setKey_self (l : List (String × α)) (k : String) (v : α) :
    lookupKey (setKey l k v) k = some v := by
  induction l with
  | nil => simp [setKey, lookupKey]
  | cons a l ih =>
    by_cases ha : (a.1 == k) = true
    · have hae : a.1 = k := by simpa using ha
      have h2 : setKey (a :: l) k v =
          (k, v) :: l.map (fun p => if p.1 == k then (k, v) else p) := by
        simp [setKey, List.any_cons, hae]
      rw [h2]
      unfold lookupKey
      simp [List.find?_cons]
    · have ha2 : (a.1 == k) = false := by simpa using ha
      have h2 : setKey (a :: l) k v = a :: setKey l k v := by
        simp only [setKey, List.any_cons, ha2, Bool.false_or]
        by_cases hl : l.any (fun p => p.1 == k) = true
        · rw [if_pos hl, if_pos hl, List.map_cons, if_neg ha]
        · rw [if_neg hl, if_neg hl, List.cons_append]
      rw [h2]
      unfold lookupKey
      simp only [List.find?_cons, ha2]
      exact ih

/-- Every entry of `setKey l k v` is the written pair or an original entry. -/
theorem mem_setKey (l : List (String × α)) (k : String) (v : α)
    (q : String × α) (hq : q ∈ setKey l k v) : q = (k, v) ∨ q ∈ l := by
  unfold setKey at hq
  by_cases h : l.any (fun p => p.1 == k) = true
  · rw [if_pos h] at hq
    obtain ⟨p, hp, he⟩ := List.mem_map.mp hq
    by_cases hpk : (p.1 == k) = true
    · left; rw [← he]; simp [hpk]
    · right; rw [← he]; simp only [hpk]; simpa using hp
  · rw [if_neg h] at hq
    rcases List.mem_append.mp hq with h1 | h2
    · right; exact h1
    · left; simpa using h2

/-- After `setKey l k v`, the only entry whose key is `k` is `(k, v)`. -/
theorem mem_setKey_key_eq (l : List (String × α)) (k : String) (v : α)
    (q : String × α) (hq : q ∈ setKey l k v) (hk : q.1 = k) : q = (k, v) := by
  unfold setKey at hq
  by_cases h : l.any (fun p => p.1 == k) = true
  · rw [if_pos h] at hq
    obtain ⟨p, hp, he⟩ := List.mem_map.mp hq
    by_cases hpk : (p.1 == k) = true
    · rw [← he]; simp [hpk]
    · exfalso
      rw [← he] at hk
      simp only [hpk, if_false] at hk
      exact absurd hk (by simpa using hpk)
  · rw [if_neg h] at hq
    rcases List.mem_append.mp hq with h1 | h2
    · exfalso
      have := List.any_eq_true.not.mp h
      push_neg at this
      have hf := this q h1
      exact absurd hk (by simpa using hf)
    · simpa using h2

/-- A successful lookup comes from an entry of the list. -/
theorem lookupKey_mem (l : List (String × α)) (k : String) (v : α)
    (h : lookupKey l k = some v) : (k, v) ∈ l := by
  unfold lookupKey at h
  cases hf : l.find? (fun p => p.1 == k) with
  | none => rw [hf] at h; simp at h
  | some p =>
    rw [hf] at h
    obtain ⟨p1, p2⟩ := p
    have e1 : p1 = k := by simpa using List.find?_some hf
    have e2 : p2 = v := by simpa using h
    have hm := List.mem_of_find?_eq_some hf
    rw [← e1, ← e2]
    exact hm

/-- Removing a key from an association list makes its lookup fail. -/
theorem lookupKey_filter_ne (l : List (String × α)) (k : String) :
    lookupKey (l.filter (fun p => p.1 != k)) k = none := by
  unfold lookupKey
  rw [List.find?_eq_none.mpr]
  · rfl
  · intro x hx
    have := (List.mem_filter.mp hx).2
    simpa [bne] using this

end JobQueue

/-- C3, counterexample: `retry_job` on a job with retries left does not
re-mark it PENDING.  On the fallback backend with one job
(`retry_count = 0 < 3 = max_retries`), `retry_job` returns `True` but leaves
the job with status `"retrying"`. -/
theorem C3_counterexample : ¬ JobQueue.RetryRemarksPending := by
  intro h
  have := h ⟨false, [], [], [("j", ⟨"j", "pending", 0, 3, 0⟩)]⟩ "j"
    ⟨"j", "pending", 0, 3, 0⟩ (by decide) (by decide)
  revert this
  decide

/-- C3, amended: `retry_job` on an existing job with `retry_count <
max_retries` returns `True`, increments `retry_count` and re-marks the job
RETRYING (not PENDING); on the Redis backend the job is re-queued with score
`priority - 1` while its record's `priority` field is unchanged, and on the
fallback backend the record (priority included) is unchanged except for
`retry_count` and `status`.  On a job whose `retry_count` has reached
`max_retries` it marks the job FAILED and returns `False` (both backends). -/
theorem C3_amended (s : JobQueue.QState) (jobId : String) (j : JobQueue.Job)
    (hj : JobQueue.getJob s jobId = some j) :
    (j.retry_count < j.max_retries →
      (JobQueue.retryJob s jobId).1 = true ∧
      JobQueue.getJob (JobQueue.retryJob s jobId).2 jobId =
        some { j with retry_count := j.retry_count + 1,
                      status := "retrying" } ∧
      (s.redisAvailable = true →
        JobQueue.lookupKey (JobQueue.retryJob s jobId).2.zset jobId =
          some (j.priority - 1)) ∧
      (s.redisAvailable = false →
        (JobQueue.retryJob s jobId).2.fb =
          JobQueue.setKey s.fb jobId
            { j with retry_count := j.retry_count + 1,
                     status := "retrying" })) ∧
    (j.max_retries ≤ j.retry_count →
      (JobQueue.retryJob s jobId).1 = false ∧
      JobQueue.getJob (JobQueue.retryJob s jobId).2 jobId =
        some { j with status := "failed" }) := by
  obtain ⟨ra, zs, st, fb⟩ := s
  constructor
  · intro hlt
    have hnot : ¬ j.max_retries ≤ j.retry_count := Nat.not_le.mpr hlt
    cases ra with
    | true =>
      have hstep : JobQueue.retryJob ⟨true, zs, st, fb⟩ jobId =
          (true, ⟨true, JobQueue.setKey zs jobId (j.priority - 1),
            JobQueue.setKey st jobId
              { j with retry_count := j.retry_count + 1,
                       status := "retrying" }, fb⟩) := by
        simp [JobQueue.retryJob, hj, hnot]
      refine ⟨by rw [hstep], ?_, fun _ => ?_, fun hf => by simp at hf⟩
      · rw [hstep]
        simp [JobQueue.getJob, JobQueue.lookupKey_setKey_self]
      · rw [hstep]
        exact JobQueue.lookupKey_setKey_self zs jobId (j.priority - 1)
    | false =>
      have hstep : JobQueue.retryJob ⟨false, zs, st, fb⟩ jobId =
          (true, ⟨false, zs, st, JobQueue.setKey fb jobId
              { j with retry_count := j.retry_count + 1,
                       status := "retrying" }⟩) := by
        simp [JobQueue.retryJob, hj, hnot]
      refine ⟨by rw [hstep], ?_, fun ht => by simp at ht, fun _ => by rw [hstep]⟩
      rw [hstep]
      simp [JobQueue.getJob, JobQueue.lookupKey_setKey_self]
  · intro hge
    cases ra with
    | true =>
      have hstep : JobQueue.retryJob ⟨true, zs, st, fb⟩ jobId =
          (false, ⟨true, zs,
            JobQueue.setKey st jobId { j with status := "failed" }, fb⟩) := by
        simp [JobQueue.retryJob, JobQueue.updateJobStatus, hj, hge]
      refine ⟨by rw [hstep], ?_⟩
      rw [hstep]
      simp [JobQueue.getJob, JobQueue.lookupKey_setKey_self]
    | false =>
      have hstep : JobQueue.retryJob ⟨false, zs, st, fb⟩ jobId =
          (false, ⟨false, zs, st,
            JobQueue.setKey fb jobId { j with status := "failed" }⟩) := by
        simp [JobQueue.retryJob, JobQueue.updateJobStatus, hj, hge]
      refine ⟨by rw [hstep], ?_⟩
      rw [hstep]
      simp [JobQueue.getJob, JobQueue.lookupKey_setKey_self]

/-- Witness for `C3_amended`: the fallback backend with one job with
`retry_count = 0 < 3`: `retry_job` returns `True` and the job becomes
RETRYING with `retry_count = 1`. -/
theorem C3_amended_witness :
    (JobQueue.retryJob
      ⟨false, [], [], [("j", ⟨"j", "pending", 0, 3, 0⟩)]⟩ "j").1 = true ∧
    JobQueue.getJob (JobQueue.retryJob
      ⟨false, [], [], [("j", ⟨"j", "pending", 0, 3, 0⟩)]⟩ "j").2 "j" =
      some ⟨"j", "retrying", 0, 3, 1⟩ := by
  have h := (C3_amended ⟨false, [], [], [("j", ⟨"j", "pending", 0, 3, 0⟩)]⟩
    "j" ⟨"j", "pending", 0, 3, 0⟩ (by decide)).1 (by decide)
  exact ⟨h.1, h.2.1⟩

namespace JobQueue

/-- A job found by `get_job` is one of the backend's records. -/
theorem getJob_mem (s : QState) (k : String) (j : Job)
    (h : getJob s k = some j) : (k, j) ∈ s.store ∨ (k, j) ∈ s.fb := by
  unfold getJob at h
  by_cases hr : s.redisAvailable = true
  · rw [if_pos hr] at h
    cases hl : lookupKey s.store k with
    | some j2 =>
      rw [hl] at h
      simp only at h
      cases h
      left
      exact lookupKey_mem _ _ _ hl
    | none =>
      rw [hl] at h
      simp only at h
      right
      exact lookupKey_mem _ _ _ h
  · rw [if_neg hr] at h
    right
    exact lookupKey_mem _ _ _ h

/-- `update_job_status` preserves the retry bound on all records. -/
theorem updateJobStatus_bounded (s : QState) (k st : String)
    (h : JobsBounded s) : JobsBounded (updateJobStatus s k st).2 := by
  unfold updateJobStatus
  cases hg : getJob s k with
  | none => exact h
  | some j =>
    have hjb : j.retry_count ≤ j.max_retries := by
      rcases getJob_mem s k j hg with hm | hm
      · exact h (k, j) (Or.inl hm)
      · exact h (k, j) (Or.inr hm)
    dsimp only
    by_cases hr : s.redisAvailable = true
    · rw [if_pos hr]
      intro p hp
      simp only at hp
      rcases hp with hp | hp
      · rcases mem_setKey _ _ _ _ hp with he | hm
        · rw [he]; exact hjb
        · exact h p (Or.inl hm)
      · exact h p (Or.inr hp)
    · rw [if_neg hr]
      intro p hp
      simp only at hp
      rcases hp with hp | hp
      · exact h p (Or.inl hp)
      · rcases mem_setKey _ _ _ _ hp with he | hm
        · rw [he]; exact hjb
        · exact h p (Or.inr hm)

/-- The fallback scan preserves the retry bound on all records. -/
theorem fbScan_bounded (s : QState) (h : JobsBounded s) :
    JobsBounded (fbScan s).2 := by
  unfold fbScan
  cases hf : (s.fb.insertionSort byPriorityDesc).find?
      (fun p => p.2.status == "pending") with
  | none => exact h
  | some x =>
    obtain ⟨k, jb⟩ := x
    dsimp only
    have hmem : (k, jb) ∈ s.fb :=
      (List.perm_insertionSort byPriorityDesc s.fb).mem_iff.mp
        (List.mem_of_find?_eq_some hf)
    have hjb : jb.retry_count ≤ jb.max_retries := h (k, jb) (Or.inr hmem)
    intro p hp
    simp only at hp
    rcases hp with hp | hp
    · exact h p (Or.inl hp)
    · rcases mem_setKey _ _ _ _ hp with he | hm
      · rw [he]; exact hjb
      · exact h p (Or.inr hm)

/-- Every queue operation preserves the retry bound on all records. -/
theorem applyOp_bounded (s : QState) (op : QOp) (h : JobsBounded s) :
    JobsBounded (applyOp s op) := by
  cases op with
  | enq jobId priority maxRetries =>
    unfold applyOp enqueueJob
    dsimp only
    by_cases hr : s.redisAvailable = true
    · rw [if_pos hr]
      intro p hp
      simp only at hp
      rcases hp with hp | hp
      · rcases mem_setKey _ _ _ _ hp with he | hm
        · rw [he]; exact Nat.zero_le _
        · exact h p (Or.inl hm)
      · exact h p (Or.inr hp)
    · rw [if_neg hr]
      intro p hp
      simp only at hp
      rcases hp with hp | hp
      · exact h p (Or.inl hp)
      · rcases mem_setKey _ _ _ _ hp with he | hm
        · rw [he]; exact Nat.zero_le _
        · exact h p (Or.inr hm)
  | deq =>
    unfold applyOp dequeueJob
    dsimp only
    by_cases hr : s.redisAvailable = true
    · rw [if_pos hr]
      cases ztop s.zset with
      | none => exact h
      | some jobId =>
        dsimp only
        cases getJob s jobId with
        | none => exact fbScan_bounded s h
        | some job =>
          dsimp only
          by_cases hp : (job.status == "pending") = true
          · rw [if_pos hp]
            exact updateJobStatus_bounded _ jobId "processing"
              (fun p hm => h p hm)
          · rw [if_neg hp]
            exact fbScan_bounded s h
    · rw [if_neg hr]
      exact fbScan_bounded s h
  | upd jobId status => exact updateJobStatus_bounded s jobId status h
  | retry jobId =>
    unfold applyOp retryJob
    dsimp only
    cases hg : getJob s jobId with
    | none => exact h
    | some j =>
      dsimp only
      by_cases hc : j.max_retries ≤ j.retry_count
      · rw [if_pos hc]
        exact updateJobStatus_bounded s jobId "failed" h
      · rw [if_neg hc]
        have hj2 : j.retry_count + 1 ≤ j.max_retries := Nat.not_le.mp hc
        by_cases hr : s.redisAvailable = true
        · rw [if_pos hr]
          intro p hp
          simp only at hp
          rcases hp with hp | hp
          · rcases mem_setKey _ _ _ _ hp with he | hm
            · rw [he]; exact hj2
            · exact h p (Or.inl hm)
          · exact h p (Or.inr hp)
        · rw [if_neg hr]
          intro p hp
          simp only at hp
          rcases hp with hp | hp
          · exact h p (Or.inl hp)
          · rcases mem_setKey _ _ _ _ hp with he | hm
            · rw [he]; exact hj2
            · exact h p (Or.inr hm)

/-- Any sequence of operations preserves the retry bound. -/
theorem applyOps_bounded (ops : List QOp) :
    ∀ s : QState, JobsBounded s → JobsBounded (applyOps s ops) := by
  induction ops with
  | nil => exact fun s h => h
  | cons op ops ih => exact fun s h => ih _ (applyOp_bounded s op h)

/-- The freshly constructed queue satisfies the retry bound. -/
theorem initState_bounded (redis : Bool) : JobsBounded (initState redis) := by
  intro p hp
  rcases hp with hp | hp <;> simp [initState] at hp

end JobQueue

/-- C7: over every sequence of queue operations on either backend,
`retry_count ≤ max_retries` holds for every job record; and concretely, a job
enqueued with `max_retries = 3` that fails repeatedly is retried with success
3 times (`retry_job` returning `True`, counts 1, 2, 3), while the 4th
`retry_job` returns `False` and marks it FAILED with `retry_count` still 3. -/
theorem C7_retry_bound :
    (∀ (redis : Bool) (ops : List JobQueue.QOp) (p : String × JobQueue.Job),
      p ∈ (JobQueue.applyOps (JobQueue.initState redis) ops).store ∨
        p ∈ (JobQueue.applyOps (JobQueue.initState redis) ops).fb →
      p.2.retry_count ≤ p.2.max_retries) ∧
    ((JobQueue.retryJob (JobQueue.applyOps (JobQueue.initState false)
        [JobQueue.QOp.enq "j" 0 3]) "j").1 = true ∧
     (JobQueue.retryJob (JobQueue.applyOps (JobQueue.initState false)
        [JobQueue.QOp.enq "j" 0 3, JobQueue.QOp.retry "j"]) "j").1 = true ∧
     (JobQueue.retryJob (JobQueue.applyOps (JobQueue.initState false)
        [JobQueue.QOp.enq "j" 0 3, JobQueue.QOp.retry "j",
         JobQueue.QOp.retry "j"]) "j").1 = true ∧
     (JobQueue.retryJob (JobQueue.applyOps (JobQueue.initState false)
        [JobQueue.QOp.enq "j" 0 3, JobQueue.QOp.retry "j",
         JobQueue.QOp.retry "j", JobQueue.QOp.retry "j"]) "j").1 = false ∧
     (JobQueue.getJob (JobQueue.applyOps (JobQueue.initState false)
        [JobQueue.QOp.enq "j" 0 3, JobQueue.QOp.retry "j",
         JobQueue.QOp.retry "j", JobQueue.QOp.retry "j",
         JobQueue.QOp.retry "j"]) "j").map JobQueue.Job.retry_count =
       some 3 ∧
     (JobQueue.getJob (JobQueue.applyOps (JobQueue.initState false)
        [JobQueue.QOp.enq "j" 0 3, JobQueue.QOp.retry "j",
         JobQueue.QOp.retry "j", JobQueue.QOp.retry "j",
         JobQueue.QOp.retry "j"]) "j").map JobQueue.Job.status =
       some "failed") := by
  constructor
  · intro redis ops p hp
    exact JobQueue.applyOps_bounded ops (JobQueue.initState redis)
      (JobQueue.initState_bounded redis) p hp
  · decide

/-- Witness for `C7_retry_bound`: the invariant applied to the concrete
history that enqueues one job on the fallback backend. -/
theorem C7_retry_bound_witness :
    (("j", (⟨"j", "pending", 0, 3, 0⟩ : JobQueue.Job)) ∈
        (JobQueue.applyOps (JobQueue.initState false)
          [JobQueue.QOp.enq "j" 0 3]).store ∨
      ("j", (⟨"j", "pending", 0, 3, 0⟩ : JobQueue.Job)) ∈
        (JobQueue.applyOps (JobQueue.initState false)
          [JobQueue.QOp.enq "j" 0 3]).fb) ∧
    (("j", (⟨"j", "pending", 0, 3, 0⟩ : JobQueue.Job)).2.retry_count ≤
      ("j", (⟨"j", "pending", 0, 3, 0⟩ : JobQueue.Job)).2.max_retries) :=
  ⟨Or.inr (by decide),
   C7_retry_bound.1 false [JobQueue.QOp.enq "j" 0 3]
     ("j", ⟨"j", "pending", 0, 3, 0⟩) (Or.inr (by decide))⟩

namespace JobQueue

/-- The entry `zbest` selects is an entry of the sorted set. -/
theorem zbest_mem (z : List (String × Int)) (x : String × Int)
    (h : zbest z = some x) : x ∈ z := by
  induction z with
  | nil => simp [zbest] at h
  | cons p rest ih =>
    unfold zbest at h
    cases hb : zbest rest with
    | none =>
      rw [hb] at h
      simp only at h
      cases h
      exact List.mem_cons_self _ _
    | some q =>
      rw [hb] at h
      dsimp only at h
      by_cases hc : p.2 < q.2 ∨ (p.2 = q.2 ∧ p.1 < q.1)
      · rw [if_pos hc] at h
        cases h
        exact List.mem_cons_of_mem _ (ih hb)
      · rw [if_neg hc] at h
        cases h
        exact List.mem_cons_self _ _

/-- `zbest` of a non-empty sorted set is never `none`. -/
theorem zbest_cons_ne_none (a : String × Int) (t : List (String × Int)) :
    zbest (a :: t) ≠ none := by
  unfold zbest
  cases zbest t with
  | none => simp
  | some q =>
    dsimp only
    split <;> simp

/-- `zbest` returns `none` only on the empty sorted set. -/
theorem zbest_eq_none (z : List (String × Int)) (h : zbest z = none) :
    z = [] := by
  cases z with
  | nil => rfl
  | cons a t => exact absurd h (zbest_cons_ne_none a t)

/-- The entry `zbest` selects has the maximal score. -/
theorem zbest_max (z : List (String × Int)) :
    ∀ x : String × Int, zbest z = some x → ∀ q ∈ z, q.2 ≤ x.2 := by
  induction z with
  | nil => intro x h; simp [zbest] at h
  | cons p rest ih =>
    intro x h
    unfold zbest at h
    cases hb : zbest rest with
    | none =>
      have hre : rest = [] := zbest_eq_none rest hb
      rw [hb] at h
      simp only at h
      cases h
      intro q hq
      rw [hre] at hq
      rcases List.mem_cons.mp hq with he | he
      · rw [he]
      · simp at he
    | some w =>
      rw [hb] at h
      dsimp only at h
      by_cases hc : p.2 < w.2 ∨ (p.2 = w.2 ∧ p.1 < w.1)
      · rw [if_pos hc] at h
        cases h
        intro q hq
        rcases List.mem_cons.mp hq with he | he
        · rw [he]
          rcases hc with hlt | ⟨heq, _⟩
          · exact le_of_lt hlt
          · exact le_of_eq heq
        · exact ih x hb q he
      · rw [if_neg hc] at h
        cases h
        intro q hq
        rcases List.mem_cons.mp hq with he | he
        · rw [he]
        · have h1 := ih w hb q he
          push_neg at hc
          exact le_trans h1 hc.1

/-- The first PENDING entry of a priority-descending-sorted list has maximal
priority among the PENDING entries. -/
theorem find?_sorted_pending (l : List (String × Job))
    (hs : List.Sorted byPriorityDesc l) (x : String × Job)
    (hf : l.find? (fun p => p.2.status == "pending") = some x) :
    x.2.status = "pending" ∧
    ∀ y ∈ l, y.2.status = "pending" → y.2.priority ≤ x.2.priority := by
  induction l with
  | nil => simp at hf
  | cons a l ih =>
    have hcons := List.sorted_cons.mp hs
    by_cases hp : (a.2.status == "pending") = true
    · simp only [List.find?_cons, hp] at hf
      cases hf
      refine ⟨by simpa using hp, ?_⟩
      intro y hy _
      rcases List.mem_cons.mp hy with he | he
      · rw [he]
      · exact hcons.1 y he
    · have hp2 : (a.2.status == "pending") = false := by simpa using hp
      simp only [List.find?_cons, hp2] at hf
      have := ih hcons.2 hf
      refine ⟨this.1, ?_⟩
      intro y hy hyp
      rcases List.mem_cons.mp hy with he | he
      · exfalso
        rw [he] at hyp
        exact hp (by simp [hyp])
      · exact this.2 y he hyp

/-- When the fallback scan returns nothing, no fallback record is PENDING. -/
theorem fbScan_eq_none (s : QState) (h : (fbScan s).1 = none) :
    ∀ p : String × Job, p ∈ s.fb → p.2.status ≠ "pending" := by
  unfold fbScan at h
  cases hf : (s.fb.insertionSort byPriorityDesc).find?
      (fun p => p.2.status == "pending") with
  | some x =>
    obtain ⟨k, jb⟩ := x
    rw [hf] at h
    simp at h
  | none =>
    intro p hp hps
    have hmem : p ∈ s.fb.insertionSort byPriorityDesc :=
      (List.perm_insertionSort byPriorityDesc s.fb).mem_iff.mpr hp
    have := List.find?_eq_none.mp hf p hmem
    exact this (by simp [hps])

/-- When the fallback scan returns a job, that job was a PENDING record of
maximal priority among the PENDING records, and it is re-stored marked
`"processing"`. -/
theorem fbScan_eq_some (s : QState) (j : Job) (h : (fbScan s).1 = some j) :
    ∃ k jb, (k, jb) ∈ s.fb ∧ jb.status = "pending" ∧
      j = { jb with status := "processing" } ∧
      (∀ q : String × Job, q ∈ s.fb → q.2.status = "pending" →
        q.2.priority ≤ jb.priority) ∧
      (fbScan s).2.fb = setKey s.fb k { jb with status := "processing" } ∧
      (fbScan s).2.redisAvailable = s.redisAvailable ∧
      (fbScan s).2.zset = s.zset ∧ (fbScan s).2.store = s.store := by
  unfold fbScan at h ⊢
  cases hf : (s.fb.insertionSort byPriorityDesc).find?
      (fun p => p.2.status == "pending") with
  | none => rw [hf] at h; simp at h
  | some x =>
    obtain ⟨k, jb⟩ := x
    rw [hf] at h
    dsimp only at h
    cases h
    have hsort : List.Sorted byPriorityDesc
        (s.fb.insertionSort byPriorityDesc) :=
      List.sorted_insertionSort byPriorityDesc s.fb
    have hspec := find?_sorted_pending _ hsort _ hf
    have hmem : (k, jb) ∈ s.fb :=
      (List.perm_insertionSort byPriorityDesc s.fb).mem_iff.mp
        (List.mem_of_find?_eq_some hf)
    refine ⟨k, jb, hmem, hspec.1, rfl, ?_, rfl, rfl, rfl, rfl⟩
    intro q hq hqp
    exact hspec.2 q
      ((List.perm_insertionSort byPriorityDesc s.fb).mem_iff.mpr hq) hqp

/-- `update_job_status` never touches the sorted set. -/
theorem updateJobStatus_zset (s : QState) (k st : String) :
    (updateJobStatus s k st).2.zset = s.zset := by
  unfold updateJobStatus
  cases getJob s k with
  | none => rfl
  | some j =>
    dsimp only
    by_cases hr : s.redisAvailable = true
    · rw [if_pos hr]
    · rw [if_neg hr]

end JobQueue

/-- C4, counterexample: `dequeue_job` can return nothing while a PENDING job
exists.  On the Redis backend, with queue scores `a ↦ 5`, `b ↦ 3`, job `a`
RETRYING and job `b` PENDING, the top-scored entry `a` is not PENDING, so the
call falls through to the (empty) in-memory scan and returns nothing — yet
the PENDING job `b` exists. -/
theorem C4_counterexample : ¬ JobQueue.DequeueComplete := by
  intro h
  have := h ⟨true, [("a", 5), ("b", 3)],
      [("a", ⟨"a", "retrying", 5, 3, 1⟩), ("b", ⟨"b", "pending", 3, 3, 0⟩)],
      []⟩
    (by decide) ("b", ⟨"b", "pending", 3, 3, 0⟩) (Or.inl (by decide))
  exact this rfl

/-- C4, amended: on the fallback backend the claim holds as stated —
`dequeue_job` returns nothing exactly when no fallback record is PENDING, and
otherwise claims a PENDING record of maximal priority, re-storing it marked
PROCESSING.  On the Redis backend `dequeue_job` consults only the top-scored
queue entry: if that entry's record is PENDING it is returned (its score is
maximal over the whole queue), removed from the queue, and marked PROCESSING
in the record store; if the record is missing or not PENDING, the call
degrades to the in-memory fallback scan (returning nothing when that
dictionary is empty, even if lower-scored PENDING jobs remain). -/
theorem C4_amended :
    (∀ s : JobQueue.QState, s.redisAvailable = false →
      ((JobQueue.dequeueJob s).1 = none →
        ∀ p : String × JobQueue.Job, p ∈ s.fb → p.2.status ≠ "pending") ∧
      (∀ j : JobQueue.Job, (JobQueue.dequeueJob s).1 = some j →
        ∃ k jb, (k, jb) ∈ s.fb ∧ jb.status = "pending" ∧
          j = { jb with status := "processing" } ∧
          (∀ q : String × JobQueue.Job, q ∈ s.fb →
            q.2.status = "pending" → q.2.priority ≤ jb.priority) ∧
          (JobQueue.dequeueJob s).2.fb =
            JobQueue.setKey s.fb k { jb with status := "processing" })) ∧
    (∀ (s : JobQueue.QState) (k : String) (jb : JobQueue.Job),
      s.redisAvailable = true → JobQueue.ztop s.zset = some k →
      JobQueue.getJob s k = some jb → jb.status = "pending" →
      (JobQueue.dequeueJob s).1 = some jb ∧
      (∃ sc : Int, (k, sc) ∈ s.zset ∧ ∀ q ∈ s.zset, q.2 ≤ sc) ∧
      JobQueue.lookupKey (JobQueue.dequeueJob s).2.zset k = none ∧
      (JobQueue.getJob (JobQueue.dequeueJob s).2 k).map JobQueue.Job.status =
        some "processing") ∧
    (∀ (s : JobQueue.QState) (k : String) (jb : JobQueue.Job),
      s.redisAvailable = true → JobQueue.ztop s.zset = some k →
      JobQueue.getJob s k = some jb → jb.status ≠ "pending" →
      JobQueue.dequeueJob s = JobQueue.fbScan s) := by
  refine ⟨?_, ?_, ?_⟩
  · intro s hrf
    have heq : JobQueue.dequeueJob s = JobQueue.fbScan s := by
      unfold JobQueue.dequeueJob
      rw [if_neg (by simp [hrf])]
    constructor
    · intro hnone p hp
      rw [heq] at hnone
      exact JobQueue.fbScan_eq_none s hnone p hp
    · intro j hj
      rw [heq] at hj
      obtain ⟨k, jb, hmem, hpend, hjj, hmax, hfb, _, _, _⟩ :=
        JobQueue.fbScan_eq_some s j hj
      rw [heq]
      exact ⟨k, jb, hmem, hpend, hjj, hmax, hfb⟩
  · intro s k jb hr hz hg hp
    have hstep : JobQueue.dequeueJob s =
        (some jb, (JobQueue.updateJobStatus
          { s with zset := s.zset.filter (fun p => p.1 != k) }
          k "processing").2) := by
      unfold JobQueue.dequeueJob
      rw [if_pos hr, hz]
      dsimp only
      rw [hg]
      dsimp only
      rw [if_pos (by simp [hp])]
    have hg1 : JobQueue.getJob
        { s with zset := s.zset.filter (fun p => p.1 != k) } k = some jb := hg
    have hupd : (JobQueue.updateJobStatus
        { s with zset := s.zset.filter (fun p => p.1 != k) }
        k "processing").2 =
        if s.redisAvailable = true then
          { s with zset := s.zset.filter (fun p => p.1 != k),
                   store := JobQueue.setKey s.store k
                     { jb with status := "processing" } }
        else
          { s with zset := s.zset.filter (fun p => p.1 != k),
                   fb := JobQueue.setKey s.fb k
                     { jb with status := "processing" } } := by
      unfold JobQueue.updateJobStatus
      rw [hg1]
      dsimp only
      by_cases hb : s.redisAvailable = true
      · rw [if_pos hb, if_pos hb]
      · rw [if_neg hb, if_neg hb]
    refine ⟨by rw [hstep], ?_, ?_, ?_⟩
    · cases hzb : JobQueue.zbest s.zset with
      | none => rw [JobQueue.ztop, hzb] at hz; simp at hz
      | some x =>
        have hx1 : x.1 = k := by
          rw [JobQueue.ztop, hzb] at hz
          simpa using hz
        refine ⟨x.2, ?_, JobQueue.zbest_max s.zset x hzb⟩
        have := JobQueue.zbest_mem s.zset x hzb
        rw [← hx1]
        exact this
    · rw [hstep, hupd, if_pos hr]
      exact JobQueue.lookupKey_filter_ne s.zset k
    · rw [hstep, hupd, if_pos hr]
      simp [JobQueue.getJob, hr, JobQueue.lookupKey_setKey_self]
  · intro s k jb hr hz hg hp
    unfold JobQueue.dequeueJob
    rw [if_pos hr, hz]
    dsimp only
    rw [hg]
    dsimp only
    rw [if_neg (by simp [hp])]

/-- Witness for `C4_amended`: the Redis backend with one PENDING job `a` at
score 5: `dequeue_job` returns it, empties the queue of its id, and marks the
stored record PROCESSING. -/
theorem C4_amended_witness :
    (JobQueue.dequeueJob
      ⟨true, [("a", 5)], [("a", ⟨"a", "pending", 5, 3, 0⟩)], []⟩).1 =
      some ⟨"a", "pending", 5, 3, 0⟩ ∧
    JobQueue.lookupKey (JobQueue.dequeueJob
      ⟨true, [("a", 5)], [("a", ⟨"a", "pending", 5, 3, 0⟩)], []⟩).2.zset
      "a" = none ∧
    (JobQueue.getJob (JobQueue.dequeueJob
      ⟨true, [("a", 5)], [("a", ⟨"a", "pending", 5, 3, 0⟩)], []⟩).2
      "a").map JobQueue.Job.status = some "processing" := by
  have h := C4_amended.2.1
    ⟨true, [("a", 5)], [("a", ⟨"a", "pending", 5, 3, 0⟩)], []⟩
    "a" ⟨"a", "pending", 5, 3, 0⟩ rfl (by decide) (by decide) rfl
  exact ⟨h.1, h.2.2.1, h.2.2.2⟩

/-- C9, counterexample: dequeue is not exclusive on the Redis backend.  With
one PENDING job `a`, two interleaved `dequeue_job` calls that both pass the
`zrevrange` and `get_job` steps before either runs `zrem` both return job
`a`: the check-then-act sequence is not atomic. -/
theorem C9_counterexample : ¬ JobQueue.DequeueExclusive := by
  intro h
  exact h ⟨true, [("a", 5)], [("a", ⟨"a", "pending", 5, 3, 0⟩)], []⟩
    [true, false, true, false, true, true, false, false]
    ⟨"a", "pending", 5, 3, 0⟩ ⟨"a", "pending", 5, 3, 0⟩
    (by decide) (by decide) rfl

/-- C9, amended: the in-memory fallback scan is atomic under cooperative
scheduling (it contains no `await`), and sequential fallback dequeues are
exclusive: when the fallback records carry their own key as id, a dequeue and
the dequeue that follows it never return jobs with the same id.  (On the
Redis backend two interleaved dequeues can both return the same job, per the
counterexample.) -/
theorem C9_amended (s : JobQueue.QState)
    (hw : ∀ p : String × JobQueue.Job, p ∈ s.fb → p.2.id = p.1)
    (hr : s.redisAvailable = false)
    (j j2 : JobQueue.Job)
    (h1 : (JobQueue.dequeueJob s).1 = some j)
    (h2 : (JobQueue.dequeueJob (JobQueue.dequeueJob s).2).1 = some j2) :
    j.id ≠ j2.id := by
  have heq : JobQueue.dequeueJob s = JobQueue.fbScan s := by
    unfold JobQueue.dequeueJob
    rw [if_neg (by simp [hr])]
  rw [heq] at h1 h2
  obtain ⟨k, jb, hmem, hpend, hjj, _, hfb, hra, _, _⟩ :=
    JobQueue.fbScan_eq_some s j h1
  have hr2 : (JobQueue.fbScan s).2.redisAvailable = false := by
    rw [hra, hr]
  have heq2 : JobQueue.dequeueJob (JobQueue.fbScan s).2 =
      JobQueue.fbScan (JobQueue.fbScan s).2 := by
    unfold JobQueue.dequeueJob
    rw [if_neg (by simp [hr2])]
  rw [heq2] at h2
  obtain ⟨k2, jb2, hmem2, hpend2, hjj2, _, _, _, _, _⟩ :=
    JobQueue.fbScan_eq_some _ j2 h2
  rw [hfb] at hmem2
  have hk2ne : k2 ≠ k := by
    intro hkk
    have hq := JobQueue.mem_setKey_key_eq s.fb k
      { jb with status := "processing" } (k2, jb2) hmem2 hkk
    have hjb2 : jb2 = { jb with status := "processing" } :=
      congrArg Prod.snd hq
    rw [hjb2] at hpend2
    simp at hpend2
  have hid1 : j.id = k := by
    rw [hjj]
    exact hw (k, jb) hmem
  have hid2 : j2.id = k2 := by
    rw [hjj2]
    rcases JobQueue.mem_setKey _ _ _ _ hmem2 with he | hm
    · exact absurd (congrArg Prod.fst he) hk2ne
    · exact hw (k2, jb2) hm
  rw [hid1, hid2]
  exact fun hkk => hk2ne hkk.symm

/-- Witness for `C9_amended`: on the fallback backend with two PENDING jobs
`a` (priority 5) and `b` (priority 3), the first dequeue claims `a` and the
second claims `b` — distinct ids. -/
theorem C9_amended_witness :
    (⟨"a", "processing", 5, 3, 0⟩ : JobQueue.Job).id ≠
      (⟨"b", "processing", 3, 3, 0⟩ : JobQueue.Job).id :=
  C9_amended
    ⟨false, [], [], [("a", ⟨"a", "pending", 5, 3, 0⟩),
      ("b", ⟨"b", "pending", 3, 3, 0⟩)]⟩
    (by decide) rfl
    ⟨"a", "processing", 5, 3, 0⟩ ⟨"b", "processing", 3, 3, 0⟩
    (by decide) (by decide)

namespace DocStore

/-- `find?` on a delete-then-insert table finds the inserted row. -/
theorem find?_saveByDoc (tbl : List (String × α)) (doc : String) (v : α) :
    (saveByDoc tbl doc v).find? (fun r => r.1 == doc) = some (doc, v) := by
  unfold saveByDoc
  induction tbl with
  | nil => simp [List.find?]
  | cons a l ih =>
    by_cases h : (a.1 == doc) = true
    · simp [List.filter_cons, h]
    · have h2 : (a.1 == doc) = false := by simpa using h
      simp [List.filter_cons, h2, List.find?_cons]

end DocStore

/-- C8: delete-then-insert round trip.  For extraction results, after
`save_extraction_result` the stage-keyed dictionary built by
`get_extraction_results` returns exactly the written payload for that
`(document, stage)` key, and the table holds exactly one row for that key;
for quality scores and routing decisions (document-keyed delete-then-insert),
reading after a save returns exactly the written value and the table holds
exactly one row for that document. -/
theorem C8_round_trip {α : Type} :
    (∀ (tbl : List DocStore.ExtRow) (doc stage : String)
        (v : DocStore.ExtPayload),
      JobQueue.lookupKey
        (DocStore.getExtractionResults
          (DocStore.saveExtractionResult tbl doc stage v) doc) stage =
        some v ∧
      (DocStore.saveExtractionResult tbl doc stage v).filter
          (fun r => r.document_id == doc && r.stage == stage) =
        [⟨doc, stage, v⟩]) ∧
    (∀ (tbl : List (String × α)) (doc : String) (v : α),
      DocStore.getByDoc (DocStore.saveByDoc tbl doc v) doc = some v ∧
      (DocStore.saveByDoc tbl doc v).filter (fun r => r.1 == doc) =
        [(doc, v)]) := by
  constructor
  · intro tbl doc stage v
    constructor
    · unfold DocStore.getExtractionResults DocStore.saveExtractionResult
      rw [List.filter_append, List.foldl_append]
      simp [JobQueue.lookupKey_setKey_self]
    · unfold DocStore.saveExtractionResult
      rw [List.filter_append, List.filter_filter]
      have h1 : tbl.filter
          (fun r => (r.document_id == doc && r.stage == stage) &&
            !(r.document_id == doc && r.stage == stage)) = [] := by
        apply List.filter_eq_nil_iff.mpr
        intro a _
        simp
      rw [h1]
      simp
  · intro tbl doc v
    constructor
    · unfold DocStore.getByDoc
      rw [DocStore.find?_saveByDoc]
      rfl
    · unfold DocStore.saveByDoc
      rw [List.filter_append, List.filter_filter]
      have h1 : tbl.filter (fun r => (r.1 == doc) && !(r.1 == doc)) = [] := by
        apply List.filter_eq_nil_iff.mpr
        intro a _
        simp
      rw [h1]
      simp

/-- C10: a document that exists but has no `processing_stages` rows yet is
reported with progress 0, current stage `"Preprocessing"`, and the
substituted default list of exactly the five pipeline stages, each
`"pending"`. -/
theorem C10_default_stages (docStatus : String) :
    DocStore.getDocumentStatusView docStatus [] =
      ⟨docStatus, "Preprocessing", 0, DocStore.defaultStages⟩ := rfl
